import Mathlib

/-!
Verification of the Pandos nucleus (phase 1 and phase 2) against its
natural-language specification.  The C sources are shallowly embedded:
pointer-linked structures become Lean lists, machine integers become
Nat or Int, and the global nucleus state is threaded explicitly.
Pointer values are modelled as follows: the C header defines
NULL as (void *)0xFFFFFFFF, distinct from the address 0, so a nullable
pointer becomes an Option; semaphore keys (int pointers cast to
unsigned long for ordering) become Nat.
-/

namespace Pandos

/-! Constants from src/h/const.h. -/

def MAXPROC : Nat := 20

def MAXSEMDS : Nat := MAXPROC + 2

def MAXINT : Nat := 0x0FFFFFFF

def DEVPERINT : Nat := 8

def BASE_LINE : Nat := 3

def LINE7 : Nat := 7

def MAX_DEVICE_COUNT : Nat := 49

def CLOCK_INDEX : Nat := MAX_DEVICE_COUNT - 1

def PLT_TIME_SLICE : Nat := 5000

def INF_TIME : Nat := 0xFFFFFFFF

def READY : Nat := 1

def ACK : Nat := 1

def ALLOFF : Nat := 0x0

def IMON : Nat := 0x0000FF00

def IECON : Nat := 0x00000001

def A8_BITS_ON : Nat := 0xFF

def TRUE : Int := 1

/-!
Process control block (src/h/types.h pcb_t).  The queue and tree links
(p_next, p_prev, p_prnt, p_child, p_lSib, p_rSib) are represented by the
position of the record inside the Lean lists and trees that model the
queues; the identity of the C object (its address) is the id field.
The processor state p_s is modelled by the abstract word pstate plus
the one register the nucleus writes into it, v0.
-/

structure Pcb where
  id : Nat
  semAdd : Option Nat
  v0 : Int
  time : Int
  pstate : Nat
deriving Repr, DecidableEq

/-!
Process queues (src/phase1/pcb.c).  The C queue is a circular
doubly-linked list addressed by a tail pointer whose head is
tail->p_next; it is modelled as a plain list in head-to-tail order, so
insertion at the tail is appending at the end.
-/

def mkEmptyProcQ : List Pcb := []

/-- emptyProcQ from src/phase1/pcb.c: a queue is empty iff the tail pointer is NULL. -/
def emptyProcQ (q : List Pcb) : Bool := q.isEmpty

/-- insertProcQ from src/phase1/pcb.c.  The C function takes a possibly
NULL pcb pointer and returns immediately when it is NULL; otherwise the
pcb becomes the new tail. -/
def insertProcQ (q : List Pcb) (p : Option Pcb) : List Pcb :=
  match p with
  | none => q
  | some p => q ++ [p]

/-- removeProcQ from src/phase1/pcb.c: remove and return the head. -/
def removeProcQ (q : List Pcb) : Option Pcb × List Pcb :=
  match q with
  | [] => (none, [])
  | h :: t => (some h, t)

/-- outProcQ from src/phase1/pcb.c: scan from the head for the pcb that
is pointer-equal to p (same id in the model) and unlink it. -/
def outProcQ (q : List Pcb) (p : Pcb) : Option Pcb × List Pcb :=
  match q.find? (fun x => x.id == p.id) with
  | none => (none, q)
  | some r => (some r, q.eraseP (fun x => x.id == p.id))

/-- headProcQ from src/phase1/pcb.c. -/
def headProcQ (q : List Pcb) : Option Pcb := q.head?

/-!
Active semaphore list (src/phase1/asl.c).  A semaphore descriptor holds
the key (the semaphore address cast to unsigned long) and the process
queue of its waiters.  The sorted singly-linked list hanging off semd_h
is modelled as a list of descriptors; the free list is tracked by its
length only, except in the analysis of initASL where the table indices
matter.
-/

structure Semd where
  key : Nat
  procQ : List Pcb
deriving Repr, DecidableEq

structure ASLState where
  asl : List Semd
  freeCount : Nat
deriving Repr, DecidableEq

/-- getSemd of src/phase1/asl.c walks the list while the current key is
less than the requested key; the walked-over prefix (whose last element
is the prev out-parameter) is the takeWhile part. -/
def getSemdBefore (k : Nat) (l : List Semd) : List Semd :=
  l.takeWhile (fun s => s.key < k)

/-- The node getSemd returns, together with everything after it. -/
def getSemdSuffix (k : Nat) (l : List Semd) : List Semd :=
  l.dropWhile (fun s => s.key < k)

/-- insertBlocked from src/phase1/asl.c.  Returns TRUE (descriptor
exhaustion) in the first component exactly when the key is new and the
free list is empty; otherwise sets the pcb key, appends it to the
waiter queue, splicing in a fresh descriptor at the sorted position
when the key was not present. -/
def insertBlocked (k : Nat) (p : Pcb) (st : ASLState) : Bool × ASLState :=
  let before := getSemdBefore k st.asl
  match getSemdSuffix k st.asl with
  | curr :: rest =>
    if curr.key = k then
      (false, ⟨before ++ { curr with
          procQ := insertProcQ curr.procQ (some { p with semAdd := some k }) } :: rest,
        st.freeCount⟩)
    else if st.freeCount = 0 then
      (true, st)
    else
      (false, ⟨before ++ ⟨k, insertProcQ mkEmptyProcQ (some { p with semAdd := some k })⟩
          :: curr :: rest,
        st.freeCount - 1⟩)
  | [] =>
    if st.freeCount = 0 then
      (true, st)
    else
      (false, ⟨before ++ [⟨k, insertProcQ mkEmptyProcQ (some { p with semAdd := some k })⟩],
        st.freeCount - 1⟩)

/-- removeBlocked from src/phase1/asl.c.  Removes the head waiter of the
descriptor with the given key, clears its p_semAdd, and when the waiter
queue has become empty unsplices the descriptor (only when a
predecessor exists, i.e. prev was not NULL) and pushes it on the free
list. -/
def removeBlocked (k : Nat) (st : ASLState) : Option Pcb × ASLState :=
  let before := getSemdBefore k st.asl
  match getSemdSuffix k st.asl with
  | [] => (none, st)
  | curr :: rest =>
    if curr.key = k then
      let removed := curr.procQ.head?.map (fun r => { r with semAdd := none })
      let q1 := curr.procQ.tail
      if q1.isEmpty then
        if before.isEmpty then
          (removed, ⟨{ curr with procQ := q1 } :: rest, st.freeCount + 1⟩)
        else
          (removed, ⟨before ++ rest, st.freeCount + 1⟩)
      else
        (removed, ⟨before ++ { curr with procQ := q1 } :: rest, st.freeCount⟩)
    else
      (none, st)

/-- outBlocked from src/phase1/asl.c.  Uses the p_semAdd stored in the
pcb itself to find the descriptor, removes the pcb from its waiter
queue (returning NULL when it is not there), frees the descriptor when
the queue drains, and does NOT clear p_semAdd. -/
def outBlocked (p : Pcb) (st : ASLState) : Option Pcb × ASLState :=
  match p.semAdd with
  | none => (none, st)
  | some k =>
    let before := getSemdBefore k st.asl
    match getSemdSuffix k st.asl with
    | [] => (none, st)
    | curr :: rest =>
      if curr.key = k then
        match curr.procQ.find? (fun x => x.id == p.id) with
        | none => (none, st)
        | some removed =>
          let q1 := curr.procQ.eraseP (fun x => x.id == p.id)
          if q1.isEmpty then
            if before.isEmpty then
              (some removed, ⟨{ curr with procQ := q1 } :: rest, st.freeCount + 1⟩)
            else
              (some removed, ⟨before ++ rest, st.freeCount + 1⟩)
          else
            (some removed, ⟨before ++ { curr with procQ := q1 } :: rest, st.freeCount⟩)
      else
        (none, st)

/-- headBlocked from src/phase1/asl.c. -/
def headBlocked (k : Nat) (st : ASLState) : Option Pcb :=
  match getSemdSuffix k st.asl with
  | [] => none
  | curr :: _ =>
    if curr.key = k then headProcQ curr.procQ else none

/-!
initASL from src/phase1/asl.c.  The C loop is
  for (i = 0; i <= MAXSEMDS; i++) freeSemd(&semdTable[i]);
so the indices it pushes on the free list run from 0 to MAXSEMDS
inclusive, one more than the MAXSEMDS slots the table declares.
freeSemd pushes at the head, and the two allocSemd calls that create
the dummy head (key 0) and dummy tail (key MAXINT) pop the two most
recently pushed indices.
-/

/-- The semdTable indices accessed by the initASL loop. -/
def initASLIndicesUsed : List Nat := List.range (MAXSEMDS + 1)

/-- The free list (as a list of semdTable indices, head first) built by
the initASL loop, before the two sentinel allocations. -/
def initASLFreeListAfterLoop : List Nat :=
  initASLIndicesUsed.foldl (fun acc i => i :: acc) []

/-- The free list remaining after initASL pops the two sentinel
descriptors. -/
def initASLFreeListFinal : List Nat := initASLFreeListAfterLoop.drop 2

/-- The ASL state right after initASL: the dummy head with key 0 linked
to the dummy tail with key MAXINT, and the rest of the descriptors on
the free list (21 of them, because of the off-by-one in the loop). -/
def initAslState : ASLState :=
  ⟨[⟨0, mkEmptyProcQ⟩, ⟨MAXINT, mkEmptyProcQ⟩], initASLFreeListFinal.length⟩

/-!
Device semaphores (src/phase2/initial.c).  The nucleus keeps the array
int semaphoreDevices[MAX_DEVICE_COUNT]; the ASL keys of blocked device
waiters are the addresses of its cells.  The load address of the array
is fixed by the linker; the model represents it by the abstract base
key SEMDEVBASE, with cell i at key SEMDEVBASE + i, so the pointer-range
test of SYS2 becomes an interval test on keys.
-/

def SEMDEVBASE : Nat := 0x1000

def devKey (i : Nat) : Nat := SEMDEVBASE + i

/-- The address-range test used by terminateProcess in
src/phase2/exceptions.c: this_semaphore >= &semaphoreDevices[0] and
this_semaphore <= &semaphoreDevices[CLOCK_INDEX]. -/
def isDeviceSem (k : Nat) : Prop := devKey 0 ≤ k ∧ k ≤ devKey CLOCK_INDEX

instance (k : Nat) : Decidable (isDeviceSem k) := by
  unfold isDeviceSem; infer_instance

/-!
Scheduler (src/phase2/scheduler.c).  The function pops the head of the
ready queue into currentProcess; when a process was obtained it loads
the 5 ms slice on the PLT and performs the LDST; otherwise it halts,
idles (interrupts on, PLT loaded with INF_TIME, WAIT), or panics
according to processCount and softBlockedCount.
-/

inductive SchedControl where
  | dispatch (p : Pcb)
  | halt
  | idle
  | panic
deriving Repr, DecidableEq

structure SchedResult where
  control : SchedControl
  readyQueue : List Pcb
  current : Option Pcb
  timerSet : Option Nat
  statusSet : Option Nat
deriving Repr, DecidableEq

/-- scheduler from src/phase2/scheduler.c lines 193-211. -/
def scheduler (readyQueue : List Pcb) (processCount softBlockedCount : Int) :
    SchedResult :=
  let popped := removeProcQ readyQueue
  match popped.1 with
  | some p =>
    { control := .dispatch p, readyQueue := popped.2, current := some p,
      timerSet := some PLT_TIME_SLICE, statusSet := none }
  | none =>
    if processCount = 0 then
      { control := .halt, readyQueue := popped.2, current := none,
        timerSet := none, statusSet := none }
    else if processCount > 0 ∧ softBlockedCount > 0 then
      { control := .idle, readyQueue := popped.2, current := none,
        timerSet := some INF_TIME, statusSet := some (ALLOFF ||| IMON ||| IECON) }
    else
      { control := .panic, readyQueue := popped.2, current := none,
        timerSet := none, statusSet := none }

/-!
PLT (local processor timer) interrupt handler
(src/phase2/interrupts.c, PLTInterruptHandler).  When there is no
current process the handler calls PANIC(); otherwise it reloads the
slice, copies the saved exception state into the current pcb
(addPigeonCurrentProcessHelper), charges the elapsed time, enqueues the
pcb on the ready queue and falls into the scheduler.
-/

inductive PltResult where
  | panic
  | toScheduler (timerReload : Nat) (readyQueue : List Pcb)
deriving Repr, DecidableEq

/-- PLTInterruptHandler from src/phase2/interrupts.c lines 285-307. -/
def PLTInterruptHandler (current : Option Pcb) (readyQueue : List Pcb)
    (savedState : Nat) (startTod currTod : Int) : PltResult :=
  match current with
  | none => .panic
  | some c =>
    let c1 := { c with pstate := savedState }
    let c2 := { c1 with time := c1.time + (currTod - startTod) }
    .toScheduler PLT_TIME_SLICE (insertProcQ readyQueue (some c2))

/-!
SYS5 (waitForIO) and SYS7 (waitForClock) from src/phase2/exceptions.c.
The nucleus state visible to them: the semaphore store (indexed by
key), the soft-block count, the ASL, and the current process.
-/

structure SysState where
  sem : Nat → Int
  softBlockedCount : Int
  aslSt : ASLState
  current : Pcb
  startTod : Int
  currTod : Int

structure SysResult where
  sem : Nat → Int
  softBlockedCount : Int
  aslSt : ASLState
  current : Option Pcb
  blocked : Bool

/-- The semaphore index computed by waitForIO (steps 1-2 of
src/phase2/exceptions.c lines 500-508): base-relative line times
DEVPERINT plus the device number, plus DEVPERINT more for a terminal
write (wait_for_read != TRUE on line 7). -/
def sys5SemIndex (line dev : Nat) (rd : Int) : Nat :=
  let idx := (line - BASE_LINE) * DEVPERINT + dev
  if line = LINE7 ∧ rd ≠ TRUE then idx + DEVPERINT else idx

/-- waitForIO from src/phase2/exceptions.c lines 500-527.  Note that
step 3 increments softBlockedCount and decrements the semaphore before
the block test, on every path. -/
def waitForIo (line dev : Nat) (rd : Int) (st : SysState) : SysResult :=
  let k := devKey (sys5SemIndex line dev rd)
  let sbc1 := st.softBlockedCount + 1
  let sem1 := fun j => if j = k then st.sem k - 1 else st.sem j
  if sem1 k < 0 then
    let c1 := { st.current with time := st.current.time + (st.currTod - st.startTod) }
    { sem := sem1, softBlockedCount := sbc1,
      aslSt := (insertBlocked k c1 st.aslSt).2, current := none, blocked := true }
  else
    { sem := sem1, softBlockedCount := sbc1,
      aslSt := st.aslSt, current := some st.current, blocked := false }

/-- waitForClock from src/phase2/exceptions.c lines 607-624.  Here the
softBlockedCount increment sits inside the block branch. -/
def waitForClock (st : SysState) : SysResult :=
  let k := devKey CLOCK_INDEX
  let sem1 := fun j => if j = k then st.sem k - 1 else st.sem j
  if sem1 k < 0 then
    let c1 := { st.current with time := st.current.time + (st.currTod - st.startTod) }
    { sem := sem1, softBlockedCount := st.softBlockedCount + 1,
      aslSt := (insertBlocked k c1 st.aslSt).2, current := none, blocked := true }
  else
    { sem := sem1, softBlockedCount := st.softBlockedCount,
      aslSt := st.aslSt, current := some st.current, blocked := false }

/-!
Device interrupt decoding (src/phase2/interrupts.c).
-/

/-- The interrupt line computation of nonTimerInterruptHandler line 163:
int interrupt_line_number = ((savedExceptionState->s_cause >> 11) & 0x1F) + 3. -/
def interruptLineNumber (cause : Nat) : Nat :=
  ((cause >>> 11) &&& 0x1F) + 3

/-- findInterruptDevice from src/phase2/interrupts.c lines 87-114:
scan the device bitmap of the line from bit 0 upward and return the
first device whose pending bit is set, defaulting to device 7. -/
def findInterruptDevice (bitmap : Nat) : Nat :=
  if bitmap &&& 0x01 ≠ 0 then 0
  else if bitmap &&& 0x02 ≠ 0 then 1
  else if bitmap &&& 0x04 ≠ 0 then 2
  else if bitmap &&& 0x08 ≠ 0 then 3
  else if bitmap &&& 0x10 ≠ 0 then 4
  else if bitmap &&& 0x20 ≠ 0 then 5
  else if bitmap &&& 0x40 ≠ 0 then 6
  else 7

/-- Modelled from the spec (priority rule of section 4.5, for comparison
with the code): the lowest-numbered device line among 3..7 whose
pending bit (bit 8 + line of the cause register) is set. -/
def specLowestPendingDeviceLine (cause : Nat) : Option Nat :=
  (List.range 8).find? (fun l => 3 ≤ l ∧ cause &&& (1 <<< (8 + l)) ≠ 0)

/-!
nonTimerInterruptHandler (src/phase2/interrupts.c lines 132-261),
steps 1 through 6 plus the step-7 control decision.  Inputs: the saved
cause word, the per-line device bitmaps, the transmitter and receiver
status registers of each device (indexed like devreg), the TOD values
read by the handler, and the nucleus state.  The MMIO acknowledge
writes of steps 2-4 touch only device registers and are not part of
the nucleus state; the step-7 state reload (addPigeon + LDST) concerns
the resumed context and is represented by the control tag.
-/

structure IrqState where
  aslSt : ASLState
  sem : Nat → Int
  readyQueue : List Pcb
  current : Option Pcb
  softBlockedCount : Int

inductive IrqControl where
  | resumeCurrent
  | toScheduler
deriving Repr, DecidableEq

structure IrqResult where
  aslSt : ASLState
  sem : Nat → Int
  readyQueue : List Pcb
  current : Option Pcb
  softBlockedCount : Int
  unblocked : Option Pcb
  control : IrqControl

/-- nonTimerInterruptHandler from src/phase2/interrupts.c.  The
status-v0 store of step 5 and the enqueue of step 6 (lines 233-236)
operate on currentProcess, exactly as the C does. -/
def nonTimerInterruptHandler (cause : Nat) (interruptDev : Nat → Nat)
    (transmStatus recvStatus : Nat → Nat) (interruptTod currTod : Int)
    (st : IrqState) : IrqResult :=
  let line := interruptLineNumber cause
  let dev := findInterruptDevice (interruptDev (line - BASE_LINE))
  let idx := (line - BASE_LINE) * DEVPERINT + dev
  let term := line = LINE7 ∧ (transmStatus idx &&& A8_BITS_ON) ≠ READY
  let statusCode : Int := if term then transmStatus idx else recvStatus idx
  let target := if term then idx + DEVPERINT else idx
  let removed := removeBlocked (devKey target) st.aslSt
  let sem1 := fun j => if j = devKey target then st.sem (devKey target) + 1 else st.sem j
  match removed.1 with
  | some w =>
    let w1 := { w with time := w.time + (currTod - interruptTod) }
    match st.current with
    | some c =>
      let c1 := { c with v0 := statusCode }
      { aslSt := removed.2, sem := sem1,
        readyQueue := insertProcQ st.readyQueue (some c1),
        current := some c1, softBlockedCount := st.softBlockedCount - 1,
        unblocked := some w1, control := .resumeCurrent }
    | none =>
      -- the C dereferences the NULL currentProcess here; the model keeps
      -- the state and tags the control so the divergence stays visible
      { aslSt := removed.2, sem := sem1, readyQueue := st.readyQueue,
        current := none, softBlockedCount := st.softBlockedCount - 1,
        unblocked := some w1, control := .toScheduler }
  | none =>
    match st.current with
    | some _ =>
      { aslSt := removed.2, sem := sem1, readyQueue := st.readyQueue,
        current := st.current, softBlockedCount := st.softBlockedCount,
        unblocked := none, control := .resumeCurrent }
    | none =>
      { aslSt := removed.2, sem := sem1, readyQueue := st.readyQueue,
        current := none, softBlockedCount := st.softBlockedCount,
        unblocked := none, control := .toScheduler }

/-!
SYS2 terminateProcess (src/phase2/exceptions.c lines 337-380).  The
process tree (p_child / p_rSib chains) is modelled by a mutual pair of
inductives; the while(removeChild) loop terminates children in
first-child order before the node handles itself.  The nucleus state
it touches: processCount, softBlockedCount, the semaphore store, the
ready queue, the ASL, and the pcbFree list (freePcb pushes at the
head).
-/

mutual
inductive PTree : Type where
  | node : Pcb → PForest → PTree
deriving Repr
inductive PForest : Type where
  | nil : PForest
  | cons : PTree → PForest → PForest
deriving Repr
end

structure TermState where
  processCount : Int
  softBlockedCount : Int
  sem : Nat → Int
  readyQueue : List Pcb
  freeList : List Pcb
  aslSt : ASLState

mutual
/-- terminateProcess from src/phase2/exceptions.c.  isCurrent records
whether the node is the currentProcess (the root of a SYS2 on the
caller); descendants are reached through removeChild and are never the
current process. -/
def terminateProcess (isCurrent : Bool) : PTree → TermState → TermState
  | PTree.node p cs, st =>
    let st1 := terminateForest cs st
    let st2 :=
      if isCurrent then
        -- outChild(terminate_process): unlinks from the parent only
        st1
      else
        match p.semAdd with
        | some k =>
          let st1a := { st1 with aslSt := (outBlocked p st1.aslSt).2 }
          if ¬ isDeviceSem k then
            { st1a with sem := fun j => if j = k then st1a.sem k + 1 else st1a.sem j }
          else
            { st1a with softBlockedCount := st1a.softBlockedCount - 1 }
        | none =>
          { st1 with readyQueue := (outProcQ st1.readyQueue p).2 }
    { st2 with freeList := p :: st2.freeList, processCount := st2.processCount - 1 }
def terminateForest : PForest → TermState → TermState
  | PForest.nil, st => st
  | PForest.cons t ts, st => terminateForest ts (terminateProcess false t st)
end

mutual
def sizeT : PTree → Nat
  | PTree.node _ cs => sizeF cs + 1
def sizeF : PForest → Nat
  | PForest.nil => 0
  | PForest.cons t ts => sizeT t + sizeF ts
end

mutual
/-- Number of pcbs in the tree that are blocked on a device-table key. -/
def devBlockedT : PTree → Nat
  | PTree.node p cs =>
    devBlockedF cs +
      (match p.semAdd with
       | some k => if isDeviceSem k then 1 else 0
       | none => 0)
def devBlockedF : PForest → Nat
  | PForest.nil => 0
  | PForest.cons t ts => devBlockedT t + devBlockedF ts
end

mutual
/-- Number of pcbs in the tree blocked on the given key. -/
def keyBlockedT (k : Nat) : PTree → Nat
  | PTree.node p cs =>
    keyBlockedF k cs + (if p.semAdd = some k then 1 else 0)
def keyBlockedF (k : Nat) : PForest → Nat
  | PForest.nil => 0
  | PForest.cons t ts => keyBlockedT k t + keyBlockedF k ts
end

/-!
ASL operation sequences, for the sortedness/sentinel invariant.
-/

inductive AslOp where
  | ins : Nat → Pcb → AslOp
  | rem : Nat → AslOp
  | out : Pcb → AslOp
deriving Repr

def applyAslOp (st : ASLState) : AslOp → ASLState
  | .ins k p => (insertBlocked k p st).2
  | .rem k => (removeBlocked k st).2
  | .out p => (outBlocked p st).2

def aslKeys (st : ASLState) : List Nat := st.asl.map Semd.key

/-- The invariant claimed for the ASL: keys strictly increase along the
next links, and the sentinel keys 0 and MAXINT are at the head and at
the tail of the list. -/
def SortedSentinels (st : ASLState) : Prop :=
  List.Pairwise (fun a b => a < b) (aslKeys st) ∧
  (aslKeys st).head? = some 0 ∧
  (aslKeys st).getLast? = some MAXINT

/-- Keys strictly between the two sentinel keys. -/
def aslOpInRange : AslOp → Prop
  | .ins k _ => 0 < k ∧ k < MAXINT
  | .rem k => 0 < k ∧ k < MAXINT
  | .out p => ∀ k, p.semAdd = some k → 0 < k ∧ k < MAXINT

/-!
Concrete fixtures used by witnesses and counterexamples.
-/

def cexPcb1 : Pcb := ⟨1, none, 0, 0, 0⟩

def cexPcb2 : Pcb := ⟨2, some (devKey 0), 0, 0, 0⟩

def irqCexState : IrqState :=
  { aslSt := ⟨[⟨0, []⟩, ⟨devKey 0, [cexPcb2]⟩, ⟨MAXINT, []⟩], 20⟩,
    sem := fun _ => 0, readyQueue := [], current := some cexPcb1,
    softBlockedCount := 1 }

def sys5CexState : SysState :=
  { sem := fun j => if j = devKey 0 then 1 else 0, softBlockedCount := 0,
    aslSt := initAslState, current := cexPcb1, startTod := 0, currTod := 0 }

def termCexChild : Pcb := ⟨3, some 7, 0, 0, 0⟩

def termCexRoot : Pcb := ⟨4, none, 0, 0, 0⟩

def termCexForest : PForest := PForest.cons (PTree.node termCexChild PForest.nil) PForest.nil

def termCexState : TermState :=
  { processCount := 5, softBlockedCount := 2, sem := fun _ => 0,
    readyQueue := [], freeList := [], aslSt := initAslState }

/-!
## Theorems
-/

/-- C10: for every process queue, insertProcQ with a NULL pcb argument
leaves the queue completely unchanged. -/
theorem insertProcQ_null_noop (q : List Pcb) : insertProcQ q none = q := rfl

/-- C8: the initASL loop runs the table index up to MAXSEMDS inclusive,
one past the last valid semdTable slot (valid indices are below
MAXSEMDS), and it leaves MAXPROC + 1 descriptors on the free list after
the two sentinel allocations, not the MAXPROC the claim (and the
declared table size) demand: the loop bound i <= MAXSEMDS is an
off-by-one. -/
theorem initASL_off_by_one :
    MAXSEMDS ∈ initASLIndicesUsed ∧ ¬ MAXSEMDS < MAXSEMDS ∧
    initASLFreeListFinal.length = MAXPROC + 1 ∧ MAXPROC + 1 ≠ MAXPROC := by
  decide

/-- C5: with device lines 3 and 4 pending (cause bits 11 and 12, cause
word 0x1800), the handler computes interrupt line
((0x1800 >> 11) & 0x1F) + 3 = 6 and services line 6, while the lowest
pending device line — the one the claim and the priority rule name — is
line 3.  The bitmap scan inside a line does pick the lowest device, but
the line selection is not a priority decode. -/
theorem interrupt_line_selection_bug :
    interruptLineNumber 0x1800 = 6 ∧
    specLowestPendingDeviceLine 0x1800 = some 3 ∧
    findInterruptDevice 0x6 = 1 := by
  decide

/-- C6 counterexample: a PLT interrupt handled with no current process
makes the handler invoke PANIC; it does not enter the scheduler, so the
claim as stated fails on the code. -/
theorem plt_idle_panic_cex :
    PLTInterruptHandler none [] 0 0 0 = PltResult.panic := rfl

/-- C6 amended: when a local-processor-timer interrupt is handled while
there is no current process, the handler panics (PANIC()), for every
ready queue, saved state and pair of TOD readings. -/
theorem plt_no_current_panics (rq : List Pcb) (s : Nat) (st ct : Int) :
    PLTInterruptHandler none rq s st ct = PltResult.panic := rfl

/-- C2: with a non-empty ready queue the scheduler pops the head, makes
it current and dispatches it with the 5 ms slice on the PLT; with an
empty queue it halts iff processCount is zero, idles (interrupts
enabled, PLT loaded with INF_TIME) iff processCount and
softBlockedCount are both positive, and panics iff processCount is
positive and softBlockedCount is zero. -/
theorem scheduler_spec (q : List Pcb) (pc sbc : Int) (hpc : 0 ≤ pc) (hsbc : 0 ≤ sbc) :
    (∀ p rest, q = p :: rest →
      scheduler q pc sbc =
        { control := SchedControl.dispatch p, readyQueue := rest, current := some p,
          timerSet := some PLT_TIME_SLICE, statusSet := none }) ∧
    (q = [] →
      ((scheduler q pc sbc).control = SchedControl.halt ↔ pc = 0) ∧
      ((scheduler q pc sbc).control = SchedControl.idle ↔ 0 < pc ∧ 0 < sbc) ∧
      ((scheduler q pc sbc).control = SchedControl.panic ↔ 0 < pc ∧ sbc = 0) ∧
      ((scheduler q pc sbc).control = SchedControl.idle →
        (scheduler q pc sbc).timerSet = some INF_TIME ∧
        (scheduler q pc sbc).statusSet = some (ALLOFF ||| IMON ||| IECON))) := by
  constructor
  · rintro p rest rfl
    simp [scheduler, removeProcQ]
  · rintro rfl
    simp only [scheduler, removeProcQ]
    split_ifs with ha hb <;> refine ⟨?_, ?_, ?_, ?_⟩ <;> simp <;> omega

/-- C2 witness: the theorem applied at the empty queue with one process
soft-blocked forces the idle decision. -/
theorem scheduler_spec_witness :
    (scheduler [] 1 1).control = SchedControl.idle :=
  ((scheduler_spec [] 1 1 (by norm_num) (by norm_num)).2 rfl).2.1.mpr (by norm_num)

/-- C1: evaluation of the device-interrupt handler at a state with a
current process (id 1) and a waiter (id 2) blocked on the device
semaphore: the handler removes the waiter from the ASL, but it stores
the device status 5 into the v0 of the CURRENT process and enqueues the
CURRENT process on the ready queue (the unblocked waiter keeps v0 = 0
and is dropped), while softBlockedCount is decremented — the writes the
claim attributes to the waiter pcb go to currentProcess instead. -/
theorem nonTimer_targets_current_cex :
    (nonTimerInterruptHandler 0 (fun _ => 1) (fun _ => 0) (fun _ => 5) 0 0
        irqCexState).readyQueue = [{ cexPcb1 with v0 := 5 }] ∧
    (nonTimerInterruptHandler 0 (fun _ => 1) (fun _ => 0) (fun _ => 5) 0 0
        irqCexState).unblocked = some { cexPcb2 with semAdd := none } ∧
    (nonTimerInterruptHandler 0 (fun _ => 1) (fun _ => 0) (fun _ => 5) 0 0
        irqCexState).softBlockedCount = irqCexState.softBlockedCount - 1 ∧
    cexPcb1.id ≠ cexPcb2.id := by
  decide

/-- C3 counterexample: SYS5 on a device semaphore whose value is 1
(reachable after a completion arrived with no waiter) does not block
the caller, yet softBlockedCount is still incremented: the increment
does not sit on the block path only, so the claimed counting invariant
is not maintained by the code. -/
theorem waitForIo_nonblocking_increment_cex :
    (waitForIo 3 0 TRUE sys5CexState).blocked = false ∧
    (waitForIo 3 0 TRUE sys5CexState).softBlockedCount
      = sys5CexState.softBlockedCount + 1 := by
  decide

/-- C3 amended: SYS5 increments softBlockedCount unconditionally,
before testing the semaphore, and blocks exactly when the decremented
counter is negative; SYS7 (wait-clock) increments softBlockedCount only
on its block path.  The claimed equality with the device-key waiter
count is therefore preserved by SYS5 only when the device counter was
non-positive at the call. -/
theorem sys5_sys7_softblock_increment (line dev : Nat) (rd : Int) (st : SysState) :
    (waitForIo line dev rd st).softBlockedCount = st.softBlockedCount + 1 ∧
    ((waitForIo line dev rd st).blocked = true ↔
      st.sem (devKey (sys5SemIndex line dev rd)) - 1 < 0) ∧
    ((waitForClock st).blocked = true ↔ st.sem (devKey CLOCK_INDEX) - 1 < 0) ∧
    ((waitForClock st).blocked = true →
      (waitForClock st).softBlockedCount = st.softBlockedCount + 1) ∧
    ((waitForClock st).blocked = false →
      (waitForClock st).softBlockedCount = st.softBlockedCount) := by
  simp only [waitForIo, waitForClock, if_pos rfl]
  split_ifs with h1 h2 <;> simp_all

/-- C3 witness: the amended theorem applied at the concrete
counterexample state. -/
theorem sys5_sys7_softblock_increment_witness :
    (waitForIo 3 0 TRUE sys5CexState).softBlockedCount
      = sys5CexState.softBlockedCount + 1 :=
  (sys5_sys7_softblock_increment 3 0 TRUE sys5CexState).1

/-- C9: inserting a pcb on a previously-unused key (any key other than
the two sentinel keys, which the fresh ASL owns) and then removing it
with outBlocked returns the same pcb with wait_key still set to the
key — outBlocked does not clear p_semAdd — while removeBlocked on the
same insertion returns the pcb with p_semAdd cleared to NULL. -/
theorem insert_out_remove_roundtrip (k : Nat) (p : Pcb) (hk0 : k ≠ 0) (hkM : k ≠ MAXINT) :
    (insertBlocked k p initAslState).1 = false ∧
    (outBlocked { p with semAdd := some k } (insertBlocked k p initAslState).2).1
      = some { p with semAdd := some k } ∧
    (removeBlocked k (insertBlocked k p initAslState).2).1
      = some { p with semAdd := none } := by
  have h0 : 0 < k := Nat.pos_of_ne_zero hk0
  have hfree : initAslState.freeCount = 21 := by decide
  have hne : ¬ initASLFreeListFinal = [] := by decide
  rcases Nat.lt_or_ge k MAXINT with hlt | hge
  · have h1 : ¬ MAXINT < k := Nat.not_lt.mpr (le_of_lt hlt)
    have h2 : ¬ k < k := lt_irrefl k
    simp [insertBlocked, removeBlocked, outBlocked, getSemdBefore, getSemdSuffix,
      initAslState, mkEmptyProcQ, insertProcQ, h0, h1, h2, hkM, Ne.symm hkM, hne,
      List.takeWhile, List.dropWhile, List.find?, List.eraseP]
  · have hgt : MAXINT < k := lt_of_le_of_ne hge (Ne.symm hkM)
    have h2 : ¬ k < k := lt_irrefl k
    simp [insertBlocked, removeBlocked, outBlocked, getSemdBefore, getSemdSuffix,
      initAslState, mkEmptyProcQ, insertProcQ, h0, hgt, h2, hkM, Ne.symm hkM, hne,
      List.takeWhile, List.dropWhile, List.find?, List.eraseP]

/-- C9 witness: the round trip at key 5 on a concrete pcb. -/
theorem insert_out_remove_roundtrip_witness :
    (outBlocked { cexPcb1 with semAdd := some 5 } (insertBlocked 5 cexPcb1 initAslState).2).1
      = some { cexPcb1 with semAdd := some 5 } :=
  (insert_out_remove_roundtrip 5 cexPcb1 (by decide) (by decide)).2.1

/-!
Helper lemmas for the ASL sortedness/sentinel invariant (C7).
-/

theorem dropWhile_head_false {α : Type} (p : α → Bool) (l t : List α) (a : α)
    (h : l.dropWhile p = a :: t) : p a = false := by
  induction l with
  | nil => simp at h
  | cons b s ih =>
    rw [List.dropWhile_cons] at h
    by_cases hb : p b = true
    · simp [hb] at h; exact ih h
    · simp [hb] at h; rw [h.1] at hb; simpa using hb

/-- Decomposition of the invariant into facts about the descriptor list. -/
theorem sortedSent_struct (st : ASLState) (h : SortedSentinels st) :
    List.Pairwise (fun s t : Semd => s.key < t.key) st.asl ∧
    (∃ s0 tl, st.asl = s0 :: tl ∧ s0.key = 0) ∧
    (∃ sl, st.asl.getLast? = some sl ∧ sl.key = MAXINT) := by
  obtain ⟨hp, hh, hl⟩ := h
  refine ⟨List.pairwise_map.mp hp, ?_, ?_⟩
  · rw [aslKeys, List.head?_map] at hh
    cases hcons : st.asl.head? with
    | none => rw [hcons] at hh; simp at hh
    | some s0 =>
      rw [hcons] at hh
      obtain ⟨tl, htl⟩ : ∃ tl, st.asl = s0 :: tl := by
        cases hl2 : st.asl with
        | nil => rw [hl2] at hcons; simp at hcons
        | cons a b =>
          rw [hl2] at hcons
          simp at hcons
          exact ⟨b, by rw [hcons]⟩
      exact ⟨s0, tl, htl, by simpa using hh⟩
  · rw [aslKeys, List.getLast?_map] at hl
    cases hlast : st.asl.getLast? with
    | none => rw [hlast] at hl; simp at hl
    | some sl =>
      rw [hlast] at hl
      exact ⟨sl, rfl, by simpa using hl⟩

/-- Rebuilding the invariant from facts about the descriptor list. -/
theorem sortedSent_build (l : List Semd) (n : Nat)
    (hp : List.Pairwise (fun s t : Semd => s.key < t.key) l)
    (hh : l.head?.map Semd.key = some 0)
    (hl : l.getLast?.map Semd.key = some MAXINT) :
    SortedSentinels ⟨l, n⟩ := by
  refine ⟨List.pairwise_map.mpr hp, ?_, ?_⟩
  · rw [aslKeys, List.head?_map]; exact hh
  · rw [aslKeys, List.getLast?_map]; exact hl

/-- Splicing a fresh key between the elements below it and the elements
above it keeps the list strictly sorted. -/
theorem pairwise_splice (k : Nat) (q : List Pcb) (l : List Semd)
    (hl : List.Pairwise (fun s t : Semd => s.key < t.key) l)
    (hgt : ∀ x ∈ l.dropWhile (fun s => s.key < k), k < x.key) :
    List.Pairwise (fun s t : Semd => s.key < t.key)
      (l.takeWhile (fun s => s.key < k) ++
        (⟨k, q⟩ : Semd) :: l.dropWhile (fun s => s.key < k)) := by
  induction l with
  | nil => simp
  | cons s t ih =>
    rw [List.pairwise_cons] at hl
    by_cases hs : s.key < k
    · have htw : List.takeWhile (fun x : Semd => decide (x.key < k)) (s :: t)
          = s :: List.takeWhile (fun x : Semd => decide (x.key < k)) t := by
        simp [List.takeWhile_cons, hs]
      have hdw : List.dropWhile (fun x : Semd => decide (x.key < k)) (s :: t)
          = List.dropWhile (fun x : Semd => decide (x.key < k)) t := by
        simp [List.dropWhile_cons, hs]
      rw [hdw] at hgt
      rw [htw, hdw, List.cons_append, List.pairwise_cons]
      refine ⟨?_, ih hl.2 hgt⟩
      intro x hx
      rcases List.mem_append.mp hx with hx1 | hx2
      · exact hl.1 x ((List.takeWhile_sublist _).subset hx1)
      · rcases List.mem_cons.mp hx2 with rfl | hx3
        · exact hs
        · exact hl.1 x ((List.dropWhile_sublist _).subset hx3)
    · have htw : List.takeWhile (fun x : Semd => decide (x.key < k)) (s :: t) = [] := by
        simp [List.takeWhile_cons, hs]
      have hdw : List.dropWhile (fun x : Semd => decide (x.key < k)) (s :: t) = s :: t := by
        simp [List.dropWhile_cons, hs]
      rw [hdw] at hgt
      rw [htw, hdw, List.nil_append, List.pairwise_cons]
      exact ⟨hgt, List.pairwise_cons.mpr hl⟩

/-- Under the invariant, everything dropWhile keeps when searching for a
key other than the found keys is strictly above k once the head of the
suffix is. -/
theorem suffix_keys_above (k : Nat) (st : ASLState)
    (hp : List.Pairwise (fun s t : Semd => s.key < t.key) st.asl)
    (curr : Semd) (rest : List Semd)
    (hA : getSemdSuffix k st.asl = curr :: rest)
    (hck : curr.key ≠ k) :
    ∀ x ∈ getSemdSuffix k st.asl, k < x.key := by
  have hA2 : List.dropWhile (fun x : Semd => decide (x.key < k)) st.asl = curr :: rest := hA
  have hcurr : ¬ curr.key < k := by
    have := dropWhile_head_false (fun x : Semd => decide (x.key < k)) st.asl rest curr hA2
    simpa using this
  have hcurrk : k < curr.key := by omega
  have hpA : List.Pairwise (fun s t : Semd => s.key < t.key) (curr :: rest) := by
    rw [← hA]
    exact List.Pairwise.sublist (List.dropWhile_sublist _) hp
  rw [hA]
  intro x hx
  rcases List.mem_cons.mp hx with rfl | hx2
  · exact hcurrk
  · exact lt_trans hcurrk ((List.pairwise_cons.mp hpA).1 x hx2)

/-- The searched-for suffix cannot be empty when the key is below the
tail sentinel key. -/
theorem suffix_ne_nil (k : Nat) (st : ASLState) (h : SortedSentinels st)
    (hkM : k < MAXINT) : getSemdSuffix k st.asl ≠ [] := by
  intro hA
  obtain ⟨_, _, ⟨sl, hsl, hslk⟩⟩ := sortedSent_struct st h
  have hmem : sl ∈ st.asl := List.mem_of_mem_getLast? hsl
  have hA2 : List.dropWhile (fun x : Semd => decide (x.key < k)) st.asl = [] := hA
  have hsplit := List.takeWhile_append_dropWhile (fun x : Semd => decide (x.key < k)) st.asl
  rw [hA2, List.append_nil] at hsplit
  rw [← hsplit] at hmem
  have := List.mem_takeWhile_imp hmem
  simp at this
  omega

/-- The searched-for prefix starts with the head sentinel whenever the
key is positive. -/
theorem before_head (k : Nat) (st : ASLState) (h : SortedSentinels st) (hk0 : 0 < k) :
    ∃ s0 tl, st.asl = s0 :: tl ∧ s0.key = 0 ∧
      getSemdBefore k st.asl = s0 :: tl.takeWhile (fun s => s.key < k) := by
  obtain ⟨_, ⟨s0, tl, hcons, hs0⟩, _⟩ := sortedSent_struct st h
  refine ⟨s0, tl, hcons, hs0, ?_⟩
  rw [hcons, getSemdBefore]
  simp [List.takeWhile_cons, hs0, hk0]

/-- Replacing the waiter queue of the descriptor found at a key leaves
the key sequence of the ASL unchanged, hence the invariant holds. -/
theorem requeue_preserves (k : Nat) (st : ASLState) (curr : Semd) (rest : List Semd)
    (q : List Pcb) (n : Nat) (h : SortedSentinels st)
    (hA : getSemdSuffix k st.asl = curr :: rest) :
    SortedSentinels ⟨getSemdBefore k st.asl ++ { curr with procQ := q } :: rest, n⟩ := by
  have hA2 : List.dropWhile (fun x : Semd => decide (x.key < k)) st.asl = curr :: rest := hA
  have hBA : getSemdBefore k st.asl ++ curr :: rest = st.asl := by
    rw [getSemdBefore, ← hA2]
    exact List.takeWhile_append_dropWhile _ _
  have hkeys : (getSemdBefore k st.asl ++ { curr with procQ := q } :: rest).map Semd.key
      = st.asl.map Semd.key := by
    conv_rhs => rw [← hBA]
    simp
  unfold SortedSentinels aslKeys at h ⊢
  rw [hkeys]
  exact h

/-- Unsplicing the descriptor found at a non-sentinel key keeps the
list sorted and keeps the sentinels at both ends. -/
theorem unsplice_preserves (k : Nat) (st : ASLState) (curr : Semd) (rest : List Semd)
    (n : Nat) (h : SortedSentinels st) (hk0 : 0 < k) (hkM : k < MAXINT)
    (hA : getSemdSuffix k st.asl = curr :: rest) (hck : curr.key = k) :
    SortedSentinels ⟨getSemdBefore k st.asl ++ rest, n⟩ := by
  obtain ⟨hp, _, ⟨sl, hsl, hslk⟩⟩ := sortedSent_struct st h
  obtain ⟨s0, tl, hcons, hs0, hB⟩ := before_head k st h hk0
  have hA2 : List.dropWhile (fun x : Semd => decide (x.key < k)) st.asl = curr :: rest := hA
  have hBA : getSemdBefore k st.asl ++ curr :: rest = st.asl := by
    rw [getSemdBefore, ← hA2]
    exact List.takeWhile_append_dropWhile _ _
  have hBne : getSemdBefore k st.asl ≠ [] := by rw [hB]; simp
  have hrne : rest ≠ [] := by
    intro hre
    rw [hre] at hBA
    have hlast : st.asl.getLast? = some curr := by
      rw [← hBA, List.getLast?_append_of_ne_nil _ (by simp)]
      rfl
    rw [hlast] at hsl
    have : curr = sl := Option.some.inj hsl
    rw [← this] at hslk
    rw [hck] at hslk
    omega
  refine sortedSent_build _ n ?_ ?_ ?_
  · have hsub : List.Sublist (getSemdBefore k st.asl ++ rest) st.asl := by
      have hstep := (List.append_sublist_append_left (getSemdBefore k st.asl)).mpr
        (List.sublist_cons_self curr rest)
      rwa [hBA] at hstep
    exact List.Pairwise.sublist hsub hp
  · rw [List.head?_append_of_ne_nil _ hBne, hB]
    simp [hs0]
  · rw [List.getLast?_append_of_ne_nil _ hrne]
    have h2 : st.asl.getLast? = rest.getLast? := by
      rw [← hBA, List.getLast?_append_of_ne_nil _ (by simp)]
      cases rest with
      | nil => exact absurd rfl hrne
      | cons a b => rfl
    rw [← h2, hsl]
    simp [hslk]

/-- insertBlocked preserves the sorted-with-sentinels invariant for a
key strictly between the sentinel keys. -/
theorem insertBlocked_preserves (k : Nat) (p : Pcb) (st : ASLState)
    (h : SortedSentinels st) (hk0 : 0 < k) (hkM : k < MAXINT) :
    SortedSentinels (insertBlocked k p st).2 := by
  obtain ⟨hp, _, ⟨sl, hsl, hslk⟩⟩ := sortedSent_struct st h
  cases hA : getSemdSuffix k st.asl with
  | nil => exact absurd hA (suffix_ne_nil k st h hkM)
  | cons curr rest =>
    by_cases hck : curr.key = k
    · have heq : insertBlocked k p st =
          (false, ⟨getSemdBefore k st.asl ++ { curr with
              procQ := insertProcQ curr.procQ (some { p with semAdd := some k }) } :: rest,
            st.freeCount⟩) := by
        simp only [insertBlocked, hA]
        rw [if_pos hck]
      rw [heq]
      exact requeue_preserves k st curr rest _ _ h hA
    · by_cases hfree : st.freeCount = 0
      · have heq : insertBlocked k p st = (true, st) := by
          simp only [insertBlocked, hA]
          rw [if_neg hck, if_pos hfree]
        rw [heq]
        exact h
      · have heq : insertBlocked k p st =
            (false, ⟨getSemdBefore k st.asl ++
                (⟨k, insertProcQ mkEmptyProcQ (some { p with semAdd := some k })⟩ : Semd)
                :: curr :: rest,
              st.freeCount - 1⟩) := by
          simp only [insertBlocked, hA]
          rw [if_neg hck, if_neg hfree]
        rw [heq]
        have hgt : ∀ x ∈ getSemdSuffix k st.asl, k < x.key :=
          suffix_keys_above k st hp curr rest hA hck
        have hpw := pairwise_splice k
          (insertProcQ mkEmptyProcQ (some { p with semAdd := some k })) st.asl hp hgt
        have hA2 : List.dropWhile (fun x : Semd => decide (x.key < k)) st.asl
            = curr :: rest := hA
        rw [hA2] at hpw
        obtain ⟨s0, tl, hcons, hs0, hB⟩ := before_head k st h hk0
        have hBne : getSemdBefore k st.asl ≠ [] := by rw [hB]; simp
        have hBA : getSemdBefore k st.asl ++ curr :: rest = st.asl := by
          rw [getSemdBefore, ← hA2]
          exact List.takeWhile_append_dropWhile _ _
        refine sortedSent_build _ _ ?_ ?_ ?_
        · exact hpw
        · rw [List.head?_append_of_ne_nil _ hBne, hB]
          simp [hs0]
        · rw [List.getLast?_append_of_ne_nil _ (by simp)]
          have h2 : st.asl.getLast? = (curr :: rest).getLast? := by
            rw [← hBA]
            exact List.getLast?_append_of_ne_nil _ (by simp)
          have h3 : ((⟨k, insertProcQ mkEmptyProcQ (some { p with semAdd := some k })⟩ : Semd)
              :: curr :: rest).getLast? = (curr :: rest).getLast? := rfl
          rw [h3, ← h2, hsl]
          simp [hslk]

/-- removeBlocked preserves the sorted-with-sentinels invariant for a
key strictly between the sentinel keys. -/
theorem removeBlocked_preserves (k : Nat) (st : ASLState) (h : SortedSentinels st)
    (hk0 : 0 < k) (hkM : k < MAXINT) : SortedSentinels (removeBlocked k st).2 := by
  cases hA : getSemdSuffix k st.asl with
  | nil =>
    have heq : removeBlocked k st = (none, st) := by
      simp only [removeBlocked, hA]
    rw [heq]
    exact h
  | cons curr rest =>
    by_cases hck : curr.key = k
    · obtain ⟨s0, tl, hcons, hs0, hB⟩ := before_head k st h hk0
      have hBne : ¬ (getSemdBefore k st.asl).isEmpty = true := by rw [hB]; simp
      by_cases hq : curr.procQ.tail.isEmpty = true
      · have heq : removeBlocked k st =
            (curr.procQ.head?.map (fun r => { r with semAdd := none }),
              ⟨getSemdBefore k st.asl ++ rest, st.freeCount + 1⟩) := by
          simp only [removeBlocked, hA]
          rw [if_pos hck, if_pos hq, if_neg hBne]
        rw [heq]
        exact unsplice_preserves k st curr rest _ h hk0 hkM hA hck
      · have heq : removeBlocked k st =
            (curr.procQ.head?.map (fun r => { r with semAdd := none }),
              ⟨getSemdBefore k st.asl ++ { curr with procQ := curr.procQ.tail } :: rest,
                st.freeCount⟩) := by
          simp only [removeBlocked, hA]
          rw [if_pos hck, if_neg hq]
        rw [heq]
        exact requeue_preserves k st curr rest _ _ h hA
    · have heq : removeBlocked k st = (none, st) := by
        simp only [removeBlocked, hA]
        rw [if_neg hck]
      rw [heq]
      exact h

/-- outBlocked preserves the sorted-with-sentinels invariant when the
pcb is either unblocked or blocked on a key strictly between the
sentinel keys. -/
theorem outBlocked_preserves (p : Pcb) (st : ASLState) (h : SortedSentinels st)
    (hp : ∀ k, p.semAdd = some k → 0 < k ∧ k < MAXINT) :
    SortedSentinels (outBlocked p st).2 := by
  cases hsem : p.semAdd with
  | none =>
    have heq : outBlocked p st = (none, st) := by simp only [outBlocked, hsem]
    rw [heq]
    exact h
  | some k =>
    obtain ⟨hk0, hkM⟩ := hp k hsem
    cases hA : getSemdSuffix k st.asl with
    | nil =>
      have heq : outBlocked p st = (none, st) := by simp only [outBlocked, hsem, hA]
      rw [heq]
      exact h
    | cons curr rest =>
      by_cases hck : curr.key = k
      · cases hfind : curr.procQ.find? (fun x => x.id == p.id) with
        | none =>
          have heq : outBlocked p st = (none, st) := by
            simp only [outBlocked, hsem, hA]
            rw [if_pos hck]
            simp only [hfind]
          rw [heq]
          exact h
        | some removed =>
          obtain ⟨s0, tl, hcons, hs0, hB⟩ := before_head k st h hk0
          have hBne : ¬ (getSemdBefore k st.asl).isEmpty = true := by rw [hB]; simp
          by_cases hq : (curr.procQ.eraseP (fun x => x.id == p.id)).isEmpty = true
          · have heq : outBlocked p st =
                (some removed, ⟨getSemdBefore k st.asl ++ rest, st.freeCount + 1⟩) := by
              simp only [outBlocked, hsem, hA]
              rw [if_pos hck]
              simp only [hfind]
              rw [if_pos hq, if_neg hBne]
            rw [heq]
            exact unsplice_preserves k st curr rest _ h hk0 hkM hA hck
          · have heq : outBlocked p st =
                (some removed,
                  ⟨getSemdBefore k st.asl ++ { curr with
                      procQ := curr.procQ.eraseP (fun x => x.id == p.id) } :: rest,
                    st.freeCount⟩) := by
              simp only [outBlocked, hsem, hA]
              rw [if_pos hck]
              simp only [hfind]
              rw [if_neg hq]
            rw [heq]
            exact requeue_preserves k st curr rest _ _ h hA
      · have heq : outBlocked p st = (none, st) := by
          simp only [outBlocked, hsem, hA]
          rw [if_neg hck]
        rw [heq]
        exact h

/-- A single ASL operation with in-range keys preserves the invariant. -/
theorem applyAslOp_preserves (st : ASLState) (op : AslOp) (h : SortedSentinels st)
    (hop : aslOpInRange op) : SortedSentinels (applyAslOp st op) := by
  cases op with
  | ins k p => exact insertBlocked_preserves k p st h hop.1 hop.2
  | rem k => exact removeBlocked_preserves k st h hop.1 hop.2
  | out p => exact outBlocked_preserves p st h hop

/-- Folding in-range ASL operations preserves the invariant. -/
theorem foldl_aslOps_preserves (ops : List AslOp) :
    ∀ st : ASLState, SortedSentinels st → (∀ op ∈ ops, aslOpInRange op) →
      SortedSentinels (ops.foldl applyAslOp st) := by
  induction ops with
  | nil =>
    intro st h _
    simpa using h
  | cons op ops ih =>
    intro st h hops
    simp only [List.foldl_cons]
    exact ih _ (applyAslOp_preserves st op h (hops op (by simp)))
      (fun o ho => hops o (by simp [ho]))

theorem sortedSentinels_init : SortedSentinels initAslState := by
  refine ⟨?_, by decide, by decide⟩
  simp [aslKeys, initAslState, mkEmptyProcQ]
  decide

/-- C7 counterexample: a single insert_blocked with a key numerically
greater than MAX_INT (device semaphore addresses do exceed
MAX_INT = 0x0FFFFFFF on this machine) walks past the tail sentinel and
splices the new descriptor AFTER it, so the sentinel with key MAX_INT
is no longer the last node: the claim fails for such keys. -/
theorem asl_beyond_maxint_cex :
    ¬ SortedSentinels (List.foldl applyAslOp initAslState
      [AslOp.ins (MAXINT + 1) cexPcb1]) := by
  intro h
  have h2 := h.2.2
  have h3 : (aslKeys (List.foldl applyAslOp initAslState
      [AslOp.ins (MAXINT + 1) cexPcb1])).getLast? = some (MAXINT + 1) := by decide
  rw [h3] at h2
  exact absurd (Option.some.inj h2) (by decide)

/-- C7 amended: after every sequence of insert_blocked, remove_blocked
and out_blocked operations starting from the initialized ASL, PROVIDED
every key used lies strictly between the sentinel keys 0 and MAX_INT,
the ASL keys strictly increase along the next links and the sentinels
with keys 0 and MAX_INT are the first and the last nodes.  (Keys equal
to a sentinel key or above MAX_INT break the invariant, see the
counterexample.) -/
theorem asl_sorted_sentinels_inrange (ops : List AslOp)
    (hops : ∀ op ∈ ops, aslOpInRange op) :
    SortedSentinels (ops.foldl applyAslOp initAslState) :=
  foldl_aslOps_preserves ops initAslState sortedSentinels_init hops

/-- C7 witness: an insert at key 5 followed by a remove at key 5 and an
out of the blocked pcb keep the invariant. -/
theorem asl_sorted_sentinels_inrange_witness :
    SortedSentinels (List.foldl applyAslOp initAslState
      [AslOp.ins 5 cexPcb1, AslOp.out { cexPcb1 with semAdd := some 5 }, AslOp.rem 5]) := by
  apply asl_sorted_sentinels_inrange
  intro op hop
  simp only [List.mem_cons, List.not_mem_nil, or_false] at hop
  rcases hop with rfl | rfl | rfl
  · exact ⟨by decide, by decide⟩
  · intro k hk
    rw [show k = 5 from ((by simpa using hk : (5 : Nat) = k)).symm]
    exact ⟨by decide, by decide⟩
  · exact ⟨by decide, by decide⟩

mutual
/-- Effects of terminating a non-current subtree: one pcb freed and one
processCount decrement per node, one softBlockedCount decrement per
node blocked on a device-table key, one increment of each non-device
semaphore per node blocked on it. -/
theorem terminateTree_effects : ∀ (t : PTree) (st : TermState),
    (terminateProcess false t st).freeList.length = st.freeList.length + sizeT t ∧
    (terminateProcess false t st).processCount = st.processCount - (sizeT t : Int) ∧
    (terminateProcess false t st).softBlockedCount
      = st.softBlockedCount - (devBlockedT t : Int) ∧
    ∀ k, ¬ isDeviceSem k →
      (terminateProcess false t st).sem k = st.sem k + (keyBlockedT k t : Int)
  | PTree.node p cs, st => by
    have hf := terminateForest_effects cs st
    obtain ⟨hf1, hf2, hf3, hf4⟩ := hf
    cases hsem : p.semAdd with
    | none =>
      simp only [terminateProcess, hsem, Bool.false_eq_true, if_false, sizeT,
        devBlockedT, keyBlockedT]
      refine ⟨by simp [hf1]; omega, by push_cast; omega, by push_cast; omega, ?_⟩
      intro k hk
      have h4 := hf4 k hk
      simp [hsem]
      omega
    | some k0 =>
      by_cases hdev : isDeviceSem k0
      · simp only [terminateProcess, hsem, Bool.false_eq_true, if_false, hdev,
          not_true_eq_false, if_false, sizeT, devBlockedT, keyBlockedT]
        refine ⟨by simp [hf1]; omega, by push_cast; omega, by push_cast; omega, ?_⟩
        intro k hk
        have h4 := hf4 k hk
        have hne : ¬ ((some k0 : Option Nat) = some k) := by
          intro he
          exact hk ((Option.some.inj he) ▸ hdev)
        simp [hne]
        omega
      · simp only [terminateProcess, hsem, Bool.false_eq_true, if_false, hdev,
          not_false_eq_true, if_true, sizeT, devBlockedT, keyBlockedT]
        refine ⟨by simp [hf1]; omega, by push_cast; omega, by push_cast; omega, ?_⟩
        intro k hk
        have h4 := hf4 k hk
        by_cases hke : k = k0
        · subst hke
          simp
          omega
        · have hne : ¬ ((some k0 : Option Nat) = some k) := by
            intro he
            exact hke (Option.some.inj he).symm
          simp [hne, hke]
          omega
theorem terminateForest_effects : ∀ (f : PForest) (st : TermState),
    (terminateForest f st).freeList.length = st.freeList.length + sizeF f ∧
    (terminateForest f st).processCount = st.processCount - (sizeF f : Int) ∧
    (terminateForest f st).softBlockedCount
      = st.softBlockedCount - (devBlockedF f : Int) ∧
    ∀ k, ¬ isDeviceSem k →
      (terminateForest f st).sem k = st.sem k + (keyBlockedF k f : Int)
  | PForest.nil, st => by
    simp [terminateForest, sizeF, devBlockedF, keyBlockedF]
  | PForest.cons t ts, st => by
    obtain ⟨h11, h12, h13, h14⟩ := terminateTree_effects t st
    obtain ⟨h21, h22, h23, h24⟩ :=
      terminateForest_effects ts (terminateProcess false t st)
    simp only [terminateForest, sizeF, devBlockedF, keyBlockedF]
    refine ⟨by omega, by push_cast; omega, by push_cast; omega, ?_⟩
    intro k hk
    have ha := h14 k hk
    have hb := h24 k hk
    push_cast
    omega
end

/-- C4: SYS2 on the current process p with descendant forest f (n =
sizeF f descendants) frees exactly n + 1 pcbs, decrements processCount
by exactly n + 1, decrements softBlockedCount once per freed descendant
blocked on a device-table wait key, and increments each non-device wait
key once per freed descendant blocked on it. -/
theorem terminateProcess_counts (p : Pcb) (f : PForest) (st : TermState) :
    (terminateProcess true (PTree.node p f) st).freeList.length
      = st.freeList.length + (sizeF f + 1) ∧
    (terminateProcess true (PTree.node p f) st).processCount
      = st.processCount - ((sizeF f : Int) + 1) ∧
    (terminateProcess true (PTree.node p f) st).softBlockedCount
      = st.softBlockedCount - (devBlockedF f : Int) ∧
    ∀ k, ¬ isDeviceSem k →
      (terminateProcess true (PTree.node p f) st).sem k
        = st.sem k + (keyBlockedF k f : Int) := by
  obtain ⟨hf1, hf2, hf3, hf4⟩ := terminateForest_effects f st
  simp only [terminateProcess, if_true]
  refine ⟨by simp [hf1]; omega, by omega, by simpa using hf3, ?_⟩
  intro k hk
  simpa using hf4 k hk

/-- C4 witness: terminating a current process with one descendant
blocked on the non-device key 7 frees 2 pcbs, drops processCount from 5
to 3, and increments semaphore 7 by one. -/
theorem terminateProcess_counts_witness :
    (terminateProcess true (PTree.node termCexRoot termCexForest) termCexState).sem 7
      = termCexState.sem 7 + (keyBlockedF 7 termCexForest : Int) :=
  (terminateProcess_counts termCexRoot termCexForest termCexState).2.2.2 7 (by decide)

end Pandos
